import Mathlib

/-!
Verification of the CIVIC-civic-pulse core subsystems: the content-addressed
dedupe ledger (`save_if_new`, `init_db` in `ingestion/local_db.py` and
`civicpulse/src/ingestion/local_db.py`) and the PDF text-extraction pipeline
with OCR fallback (`extract_pdf` / `process_pdfs` in
`backend/processing/pdf_processor.py` and
`civicpulse/src/processing/pdf_processor.py`).

The Python code is shallowly embedded: byte strings become `List Nat`, the
SQLite store becomes a list of rows with the uniqueness constraint made
explicit, the external OCR engine becomes per-page oracle fields, and the
filesystem becomes an explicit record of directories and files.
-/

namespace CivicPulse

/-! ## Content store (ledger): `local_db.py` -/

/-- One row of the `documents` table:
`(id, source_id, file_url, content_hash, bytes_size, created_at)`. -/
structure Document where
  id : String
  source_id : String
  file_url : String
  content_hash : String
  bytes_size : Nat
  created_at : String
deriving DecidableEq, Repr

/-- The `documents` table, rows in insertion order. -/
abbrev Store := List Document

/-- Result dict of `save_if_new`:
`{status, document_id, content_hash, bytes_size}`. -/
structure SaveResult where
  status : String
  document_id : String
  content_hash : String
  bytes_size : Nat
deriving DecidableEq, Repr

/-- Modelled from the spec: the `documents` table schema (`db/schema.sql`,
not present under `src/`) declares `content_hash UNIQUE`, so the SQL
`INSERT` raises `sqlite3.IntegrityError` exactly when a row with the same
`content_hash` already exists; otherwise the row is appended. -/
def insertDocument (store : Store) (d : Document) : Option Store :=
  if store.any (fun e => e.content_hash = d.content_hash) then none
  else some (store ++ [d])

/-- `SELECT id FROM documents WHERE content_hash = ? LIMIT 1`. -/
def lookupByHash (store : Store) (h : String) : Option Document :=
  (store.filter (fun e => e.content_hash = h)).head?

/-- `save_if_new(source_id, file_url, content_bytes)` from
`ingestion/local_db.py` (identical logic in
`civicpulse/src/ingestion/local_db.py`).  `hash` stands for
`hashlib.sha256(...).hexdigest()` (an arbitrary deterministic function of the
bytes), `freshId` for `str(uuid.uuid4())` and `createdAt` for
`datetime.now(timezone.utc).isoformat()`, both supplied by the environment.
Returns the result dict together with the store after the call. -/
def save_if_new (hash : List Nat → String) (freshId createdAt : String)
    (source_id file_url : String) (content_bytes : List Nat) (store : Store) :
    SaveResult × Store :=
  let content_hash := hash content_bytes
  let bytes_size := content_bytes.length
  match insertDocument store
      { id := freshId, source_id := source_id, file_url := file_url,
        content_hash := content_hash, bytes_size := bytes_size,
        created_at := createdAt } with
  | some store' =>
      ({ status := "created", document_id := freshId,
         content_hash := content_hash, bytes_size := bytes_size }, store')
  | none =>
      let document_id :=
        match lookupByHash store content_hash with
        | some d => d.id
        | none => freshId
      ({ status := "duplicate", document_id := document_id,
         content_hash := content_hash, bytes_size := bytes_size }, store)

end CivicPulse

namespace CivicPulse

theorem insertDocument_of_not_mem (store : Store) (d : Document)
    (h : ∀ e ∈ store, e.content_hash ≠ d.content_hash) :
    insertDocument store d = some (store ++ [d]) := by
  unfold insertDocument
  rw [if_neg]
  intro hc
  obtain ⟨e, he, hhash⟩ := List.any_eq_true.mp hc
  exact h e he (by simpa using hhash)

theorem insertDocument_of_mem (store : Store) (d : Document) (e : Document)
    (he : e ∈ store) (hhash : e.content_hash = d.content_hash) :
    insertDocument store d = none := by
  unfold insertDocument
  rw [if_pos]
  exact List.any_eq_true.mpr ⟨e, he, by simpa using hhash⟩

theorem save_if_new_eq_created (hash : List Nat → String)
    (freshId createdAt sid url : String) (B : List Nat) (store : Store)
    (h : ∀ e ∈ store, e.content_hash ≠ hash B) :
    save_if_new hash freshId createdAt sid url B store =
      ({ status := "created", document_id := freshId,
         content_hash := hash B, bytes_size := B.length },
       store ++ [⟨freshId, sid, url, hash B, B.length, createdAt⟩]) := by
  simp only [save_if_new]
  rw [insertDocument_of_not_mem store _ (fun e he => h e he)]

theorem save_if_new_eq_duplicate (hash : List Nat → String)
    (freshId createdAt sid url : String) (B : List Nat) (store : Store)
    (d : Document) (hd : lookupByHash store (hash B) = some d) :
    save_if_new hash freshId createdAt sid url B store =
      ({ status := "duplicate", document_id := d.id,
         content_hash := hash B, bytes_size := B.length }, store) := by
  have hmem : d ∈ store.filter (fun e => e.content_hash = hash B) := by
    unfold lookupByHash at hd
    cases hfil : store.filter (fun e => decide (e.content_hash = hash B)) with
    | nil => rw [hfil] at hd; simp at hd
    | cons a l =>
        rw [hfil] at hd
        simp only [List.head?] at hd
        cases Option.some_inj.mp hd
        exact List.mem_cons_self _ _
  have hins : insertDocument store
      ⟨freshId, sid, url, hash B, B.length, createdAt⟩ = none := by
    apply insertDocument_of_mem store _ d (List.mem_of_mem_filter hmem)
    simpa using List.of_mem_filter hmem
  simp only [save_if_new]
  rw [hins, hd]

theorem save_if_new_of_hash_mem (hash : List Nat → String)
    (freshId createdAt sid url : String) (B : List Nat) (store : Store)
    (e : Document) (he : e ∈ store) (hh : e.content_hash = hash B) :
    (save_if_new hash freshId createdAt sid url B store).1.status = "duplicate" ∧
    (save_if_new hash freshId createdAt sid url B store).2 = store := by
  simp only [save_if_new]
  rw [insertDocument_of_mem store _ e he (by simpa using hh)]
  cases lookupByHash store (hash B) <;> simp

theorem lookupByHash_append_singleton (store : Store) (d : Document)
    (h : ∀ e ∈ store, e.content_hash ≠ d.content_hash) :
    lookupByHash (store ++ [d]) d.content_hash = some d := by
  unfold lookupByHash
  rw [List.filter_append]
  have hnil : store.filter (fun e => decide (e.content_hash = d.content_hash)) = [] :=
    List.filter_eq_nil_iff.mpr (fun e he => by simpa using h e he)
  rw [hnil]
  simp

end CivicPulse

/-- **C1**: starting from a store with no document whose `content_hash` equals
the hash of `B`, `save_if_new(s1, u1, B)` followed by `save_if_new(s2, u2, B)`
(any `s2`, `u2`, any fresh ids and timestamps) returns `status = "created"`
then `status = "duplicate"`, and both calls report the same `content_hash`
and the same `document_id`, namely the id assigned by the first call. -/
theorem C1_dedupe_idempotent (hash : List Nat → String)
    (s1 u1 s2 u2 id1 t1 id2 t2 : String) (B : List Nat)
    (store : CivicPulse.Store)
    (hfresh : ∀ d ∈ store, d.content_hash ≠ hash B) :
    let r1 := CivicPulse.save_if_new hash id1 t1 s1 u1 B store
    let r2 := CivicPulse.save_if_new hash id2 t2 s2 u2 B r1.2
    r1.1.status = "created" ∧ r2.1.status = "duplicate" ∧
    r1.1.content_hash = r2.1.content_hash ∧
    r1.1.document_id = r2.1.document_id ∧ r1.1.document_id = id1 := by
  intro r1 r2
  have hr1 : r1 = (⟨"created", id1, hash B, B.length⟩,
      store ++ [⟨id1, s1, u1, hash B, B.length, t1⟩]) :=
    CivicPulse.save_if_new_eq_created hash id1 t1 s1 u1 B store hfresh
  have hlook : CivicPulse.lookupByHash r1.2 (hash B) =
      some ⟨id1, s1, u1, hash B, B.length, t1⟩ := by
    rw [hr1]
    exact CivicPulse.lookupByHash_append_singleton store _ hfresh
  have hr2 : r2 = (⟨"duplicate", id1, hash B, B.length⟩, r1.2) :=
    CivicPulse.save_if_new_eq_duplicate hash id2 t2 s2 u2 B r1.2 _ hlook
  refine ⟨?_, ?_, ?_, ?_, ?_⟩
  · rw [hr1]
  · rw [hr2]
  · rw [hr1, hr2]
  · rw [hr1, hr2]
  · rw [hr1]

/-- Witness for C1 at a concrete empty store and concrete bytes. -/
theorem C1_dedupe_idempotent_witness :
    (∀ d ∈ ([] : CivicPulse.Store),
        d.content_hash ≠ (fun b : List Nat => toString b.length) [37, 80]) ∧
    ((CivicPulse.save_if_new (fun b => toString b.length) "id-1" "t1"
        "wichita" "https://x/a.pdf" [37, 80] []).1.status = "created") := by
  have h := C1_dedupe_idempotent (fun b : List Nat => toString b.length)
    "wichita" "https://x/a.pdf" "wichita2" "https://x/b.pdf"
    "id-1" "t1" "id-2" "t2" [37, 80] []
    (by intro d hd; simp at hd)
  exact ⟨by intro d hd; simp at hd, h.1⟩

/-- **C6**: `save_if_new` adds exactly the one new row (appended after the
untouched pre-existing rows) when it reports `created`, and leaves the store
completely unchanged — every existing row keeping its `file_url`, `source_id`,
`id` and `created_at` — when it reports `duplicate`. -/
theorem C6_save_if_new_frame (hash : List Nat → String)
    (freshId createdAt sid url : String) (B : List Nat)
    (store : CivicPulse.Store) :
    let r := CivicPulse.save_if_new hash freshId createdAt sid url B store
    (r.1.status = "created" →
      r.2 = store ++ [⟨freshId, sid, url, hash B, B.length, createdAt⟩]) ∧
    (r.1.status = "duplicate" → r.2 = store) := by
  intro r
  by_cases hex : ∃ e ∈ store, e.content_hash = hash B
  · obtain ⟨e, he, hh⟩ := hex
    have h := CivicPulse.save_if_new_of_hash_mem hash freshId createdAt
      sid url B store e he hh
    constructor
    · intro hc
      rw [show r.1.status = "duplicate" from h.1] at hc
      simp at hc
    · intro _
      exact h.2
  · push_neg at hex
    have h := CivicPulse.save_if_new_eq_created hash freshId createdAt
      sid url B store hex
    constructor
    · intro _
      rw [show r = _ from h]
    · intro hc
      rw [show r = _ from h] at hc
      simp at hc

namespace CivicPulse

/-! ## Extraction engine: `pdf_processor.py`

`extract_pdf` in `backend/processing/pdf_processor.py` and the inlined page
loop of `process_pdfs` in `civicpulse/src/processing/pdf_processor.py` run
the same per-page algorithm.  A PDF is embedded as the list of its pages in
physical order; the external libraries become per-page oracle fields:
`nativeText` is what `page.get_text("text", sort=True)` returns, `ocrText`
is what `pytesseract.image_to_string` returns on the page rendered at
`Matrix(2, 2)`, `ocrConfRaw` is the `"conf"` column of
`pytesseract.image_to_data(...)["conf"]`, and `confLookupFails` records
whether that call raises (the `except Exception: avg_conf = None` path). -/

/-- Python `str.isspace` characters relevant to `strip`/`lstrip`
(ASCII whitespace, the C1 separator range, NEL, NBSP and the Unicode
line/paragraph separators). -/
def isPySpace (c : Char) : Bool :=
  c = ' ' || c = '\t' || c = '\n' || c = '\r' || c = '\x0b' || c = '\x0c' ||
  c = '\x1c' || c = '\x1d' || c = '\x1e' || c = '\x1f' || c = '\x85' ||
  c = '\xa0' || c = ' ' || c = ' ' || c = '　'

/-- Characters at which Python `str.splitlines` breaks. -/
def isLineBoundary (c : Char) : Bool :=
  c = '\n' || c = '\r' || c = '\x0b' || c = '\x0c' ||
  c = '\x1c' || c = '\x1d' || c = '\x1e' || c = '\x85' ||
  c = ' ' || c = ' '

/-- Python `str.lstrip()`. -/
def pyLstrip (s : List Char) : List Char := s.dropWhile isPySpace

/-- Python `str.strip()`. -/
def pyStrip (s : List Char) : List Char :=
  ((s.dropWhile isPySpace).reverse.dropWhile isPySpace).reverse

/-- Python `str.splitlines`, main loop: accumulate the current line
(reversed) and break at every line-boundary character, treating `"\r\n"`
as a single break; a trailing boundary does not open a final empty line. -/
def splitlinesGo : List Char → List Char → List (List Char)
  | [], acc => [acc.reverse]
  | c :: cs, acc =>
    if isLineBoundary c then
      match cs with
      | [] => [acc.reverse]
      | d :: cs' =>
        if c = '\r' ∧ d = '\n' then
          acc.reverse :: (if cs'.isEmpty then [] else splitlinesGo cs' [])
        else
          acc.reverse :: splitlinesGo (d :: cs') []
    else
      splitlinesGo cs (c :: acc)

/-- Python `str.splitlines`. -/
def pySplitlines (s : List Char) : List (List Char) :=
  if s.isEmpty then [] else splitlinesGo s []

/-- The document-assembly step of `extract_pdf` / `process_pdfs`:
`text = chr(12).join(p["text"] for p in per_page)` followed by
`text = "\n".join(line.lstrip() for line in text.splitlines())`. -/
def assembleFullText (pageTexts : List (List Char)) : List Char :=
  let joined := List.intercalate [Char.ofNat 12] pageTexts
  List.intercalate ['\n'] ((pySplitlines joined).map pyLstrip)

/-- Provenance tag of a `PageResult`. -/
inductive Source where
  | native
  | ocr
deriving DecidableEq, Repr

/-- One page of the input PDF, with its external-library oracles. -/
structure Page where
  nativeText : List Char
  ocrText : List Char
  ocrConfRaw : List (List Char)
  confLookupFails : Bool
deriving DecidableEq, Repr

/-- One entry of `per_page`: `{"index": …, "source": …, "text": …}` plus the
`"ocr_avg_conf"` key that is only ever set on OCR pages (`none` models both
Python `None` and the key being absent on native pages). -/
structure PageResult where
  index : Nat
  source : Source
  text : List Char
  ocr_avg_conf : Option ℚ
deriving DecidableEq, Repr

/-- Python `str.isdigit` for the ASCII strings tesseract emits. -/
def pyIsDigit (s : List Char) : Bool := !s.isEmpty && s.all Char.isDigit

/-- Python `int(...)` on a string of digits. -/
def pyToNat (s : List Char) : Nat :=
  s.foldl (fun n c => n * 10 + (c.toNat - 48)) 0

/-- `[int(c) for c in data.get("conf", []) if c.isdigit() and int(c) >= 0]`. -/
def validConfs (raw : List (List Char)) : List Nat :=
  (raw.filter (fun c => pyIsDigit c && decide (0 ≤ (pyToNat c : Int)))).map pyToNat

/-- The confidence step of the OCR branch:
`avg_conf = (sum(confs) / len(confs)) if confs else None`, with the whole
lookup wrapped in `try: … except Exception: avg_conf = None`. -/
def ocrAvgConf (p : Page) : Option ℚ :=
  if p.confLookupFails then none
  else
    let confs := validConfs p.ocrConfRaw
    if confs.isEmpty then none
    else some ((confs.sum : ℚ) / (confs.length : ℚ))

/-- The classification test `if t and t.strip():` on the embedded text. -/
def pageIsNative (p : Page) : Bool :=
  !p.nativeText.isEmpty && !(pyStrip p.nativeText).isEmpty

/-- The page loop of `extract_pdf`: one `PageResult` per page, `index` from
`page.number` (the physical position), `text_pages`/`ocr_pages` counters
incremented in the chosen branch. -/
def extractLoop : Nat → List Page → List PageResult × Nat × Nat
  | _, [] => ([], 0, 0)
  | i, p :: ps =>
    let rest := extractLoop (i + 1) ps
    if pageIsNative p then
      (⟨i, Source.native, p.nativeText, none⟩ :: rest.1, rest.2.1 + 1, rest.2.2)
    else
      (⟨i, Source.ocr, p.ocrText, ocrAvgConf p⟩ :: rest.1, rest.2.1, rest.2.2 + 1)

/-- The structured result of one document:
`{"text": …, "per_page": …, "text_pages": …, "ocr_pages": …}`. -/
structure ExtractionResult where
  perPage : List PageResult
  text_pages : Nat
  ocr_pages : Nat
  fullText : List Char
deriving DecidableEq, Repr

/-- `extract_pdf(pdf_path)` from `backend/processing/pdf_processor.py`
(the same loop is inlined in `process_pdfs` of
`civicpulse/src/processing/pdf_processor.py`). -/
def extract_pdf (doc : List Page) : ExtractionResult :=
  let r := extractLoop 0 doc
  { perPage := r.1, text_pages := r.2.1, ocr_pages := r.2.2,
    fullText := assembleFullText (r.1.map PageResult.text) }

end CivicPulse

namespace CivicPulse

theorem pyStrip_nil : pyStrip [] = [] := rfl

theorem pageIsNative_iff (p : Page) :
    pageIsNative p = true ↔ pyStrip p.nativeText ≠ [] := by
  unfold pageIsNative
  cases hn : p.nativeText with
  | nil => simp [hn, pyStrip_nil]
  | cons c cs =>
      simp only [hn, List.isEmpty_cons, Bool.not_false, Bool.true_and]
      rw [Bool.not_eq_true']
      simp [List.isEmpty_iff]

theorem extractLoop_length (i : Nat) (ps : List Page) :
    (extractLoop i ps).1.length = ps.length := by
  induction ps generalizing i with
  | nil => simp [extractLoop]
  | cons p ps ih =>
      by_cases h : pageIsNative p <;> simp [extractLoop, h, ih]

theorem extractLoop_indexes (i : Nat) (ps : List Page) :
    (extractLoop i ps).1.map PageResult.index = List.range' i ps.length := by
  induction ps generalizing i with
  | nil => simp [extractLoop]
  | cons p ps ih =>
      by_cases h : pageIsNative p <;>
        simp [extractLoop, h, ih, List.range'_succ]

theorem extractLoop_counts (i : Nat) (ps : List Page) :
    (extractLoop i ps).2.1 + (extractLoop i ps).2.2 = ps.length := by
  induction ps generalizing i with
  | nil => simp [extractLoop]
  | cons p ps ih =>
      have hih := ih (i + 1)
      by_cases h : pageIsNative p <;> simp [extractLoop, h] <;> omega

end CivicPulse

/-- **C2**: for every N-page PDF, `extract_pdf` returns exactly N
`PageResult`s whose `index` values are exactly `0 .. N-1` in increasing
physical order (their list of indexes is literally `range N`), and
`text_pages + ocr_pages = N`. -/
theorem C2_page_partition (doc : List CivicPulse.Page) :
    (CivicPulse.extract_pdf doc).perPage.length = doc.length ∧
    (CivicPulse.extract_pdf doc).perPage.map CivicPulse.PageResult.index =
      List.range doc.length ∧
    (CivicPulse.extract_pdf doc).text_pages +
      (CivicPulse.extract_pdf doc).ocr_pages = doc.length := by
  refine ⟨?_, ?_, ?_⟩
  · simpa [CivicPulse.extract_pdf] using CivicPulse.extractLoop_length 0 doc
  · rw [List.range_eq_range']
    simpa [CivicPulse.extract_pdf] using CivicPulse.extractLoop_indexes 0 doc
  · simpa [CivicPulse.extract_pdf] using CivicPulse.extractLoop_counts 0 doc

/-- **C3**: page-by-page (the two lists correspond pointwise), a page is
tagged `native` exactly when its embedded text layer trims to a non-empty
string — in which case its `PageResult.text` is that embedded text — and is
tagged `ocr` exactly when the embedded layer trims to empty, in which case
its text is the OCR oracle's output on the page rendered at 2x. -/
theorem C3_native_vs_ocr_classification (doc : List CivicPulse.Page) :
    List.Forall₂ (fun p pr =>
      (pr.source = CivicPulse.Source.native ↔ CivicPulse.pyStrip p.nativeText ≠ []) ∧
      (pr.source = CivicPulse.Source.ocr ↔ CivicPulse.pyStrip p.nativeText = []) ∧
      (pr.source = CivicPulse.Source.native → pr.text = p.nativeText) ∧
      (pr.source = CivicPulse.Source.ocr → pr.text = p.ocrText))
      doc (CivicPulse.extract_pdf doc).perPage := by
  have main : ∀ i (ps : List CivicPulse.Page),
      List.Forall₂ (fun p pr =>
        (pr.source = CivicPulse.Source.native ↔ CivicPulse.pyStrip p.nativeText ≠ []) ∧
        (pr.source = CivicPulse.Source.ocr ↔ CivicPulse.pyStrip p.nativeText = []) ∧
        (pr.source = CivicPulse.Source.native → pr.text = p.nativeText) ∧
        (pr.source = CivicPulse.Source.ocr → pr.text = p.ocrText))
        ps (CivicPulse.extractLoop i ps).1 := by
    intro i ps
    induction ps generalizing i with
    | nil => simp [CivicPulse.extractLoop]
    | cons p ps ih =>
        by_cases h : CivicPulse.pageIsNative p
        · have hs := (CivicPulse.pageIsNative_iff p).mp h
          simp only [CivicPulse.extractLoop, h, if_true]
          refine List.Forall₂.cons ⟨?_, ?_, ?_, ?_⟩ (ih (i + 1))
          · simpa using hs
          · constructor
            · intro hc; exact absurd hc (by simp)
            · intro hc; exact absurd hc hs
          · intro _; rfl
          · intro hc; exact absurd hc (by simp)
        · have hs : CivicPulse.pyStrip p.nativeText = [] := by
            by_contra hne
            exact h ((CivicPulse.pageIsNative_iff p).mpr hne)
          simp only [CivicPulse.extractLoop, h, if_false]
          refine List.Forall₂.cons ⟨?_, ?_, ?_, ?_⟩ (ih (i + 1))
          · constructor
            · intro hc; exact absurd hc (by simp)
            · intro hc; exact absurd hs hc
          · simpa using hs
          · intro hc; exact absurd hc (by simp)
          · intro _; rfl
  simpa [CivicPulse.extract_pdf] using main 0 doc

/-- **C5**: page-by-page, `ocr_avg_conf` is never set on a `native` page; on
an `ocr` page the raw confidence values are filtered to the digit-only
(hence non-negative integer) ones and, when the confidence lookup did not
fail and at least one such value exists, `ocr_avg_conf` is their arithmetic
mean; when the lookup failed or no valid value exists it is `none`, and in
every case the page's text is the OCR output, untouched by the confidence
step. -/
theorem C5_ocr_confidence (doc : List CivicPulse.Page) :
    List.Forall₂ (fun p pr =>
      (pr.source = CivicPulse.Source.native → pr.ocr_avg_conf = none) ∧
      (pr.source = CivicPulse.Source.ocr → pr.text = p.ocrText) ∧
      (pr.source = CivicPulse.Source.ocr → p.confLookupFails = false →
        CivicPulse.validConfs p.ocrConfRaw ≠ [] →
        pr.ocr_avg_conf = some
          (((CivicPulse.validConfs p.ocrConfRaw).sum : ℚ) /
            ((CivicPulse.validConfs p.ocrConfRaw).length : ℚ))) ∧
      (pr.source = CivicPulse.Source.ocr →
        (p.confLookupFails = true ∨ CivicPulse.validConfs p.ocrConfRaw = []) →
        pr.ocr_avg_conf = none))
      doc (CivicPulse.extract_pdf doc).perPage := by
  have main : ∀ i (ps : List CivicPulse.Page),
      List.Forall₂ (fun p pr =>
        (pr.source = CivicPulse.Source.native → pr.ocr_avg_conf = none) ∧
        (pr.source = CivicPulse.Source.ocr → pr.text = p.ocrText) ∧
        (pr.source = CivicPulse.Source.ocr → p.confLookupFails = false →
          CivicPulse.validConfs p.ocrConfRaw ≠ [] →
          pr.ocr_avg_conf = some
            (((CivicPulse.validConfs p.ocrConfRaw).sum : ℚ) /
              ((CivicPulse.validConfs p.ocrConfRaw).length : ℚ))) ∧
        (pr.source = CivicPulse.Source.ocr →
          (p.confLookupFails = true ∨ CivicPulse.validConfs p.ocrConfRaw = []) →
          pr.ocr_avg_conf = none))
        ps (CivicPulse.extractLoop i ps).1 := by
    intro i ps
    induction ps generalizing i with
    | nil => simp [CivicPulse.extractLoop]
    | cons p ps ih =>
        by_cases h : CivicPulse.pageIsNative p
        · simp only [CivicPulse.extractLoop, h, if_true]
          refine List.Forall₂.cons ⟨?_, ?_, ?_, ?_⟩ (ih (i + 1))
          · intro _; rfl
          · intro hc; exact absurd hc (by simp)
          · intro hc; exact absurd hc (by simp)
          · intro hc; exact absurd hc (by simp)
        · simp only [CivicPulse.extractLoop, h, if_false]
          refine List.Forall₂.cons ⟨?_, ?_, ?_, ?_⟩ (ih (i + 1))
          · intro hc; exact absurd hc (by simp)
          · intro _; rfl
          · intro _ hfail hne
            simp [CivicPulse.ocrAvgConf, hfail, hne]
          · intro _ hcase
            rcases hcase with hfail | hnil
            · simp [CivicPulse.ocrAvgConf, hfail]
            · simp [CivicPulse.ocrAvgConf, hnil]
  simpa [CivicPulse.extract_pdf] using main 0 doc

namespace CivicPulse

theorem splitlinesGo_no_boundary (n : Nat) : ∀ (s acc : List Char),
    s.length ≤ n →
    (∀ c ∈ acc, isLineBoundary c = false) →
    ∀ l ∈ splitlinesGo s acc, ∀ c ∈ l, isLineBoundary c = false := by
  induction n with
  | zero =>
      intro s acc hlen hacc l hl c hc
      have hs : s = [] := List.length_eq_zero.mp (Nat.le_zero.mp hlen)
      subst hs
      simp only [splitlinesGo, List.mem_singleton] at hl
      subst hl
      exact hacc c (List.mem_reverse.mp hc)
  | succ n ih =>
      intro s acc hlen hacc l hl c hc
      cases s with
      | nil =>
          simp only [splitlinesGo, List.mem_singleton] at hl
          subst hl
          exact hacc c (List.mem_reverse.mp hc)
      | cons c0 cs =>
          by_cases hb : isLineBoundary c0 = true
          · cases cs with
            | nil =>
                simp only [splitlinesGo, hb, if_true, List.mem_singleton] at hl
                subst hl
                exact hacc c (List.mem_reverse.mp hc)
            | cons d cs' =>
                simp only [splitlinesGo, hb, if_true] at hl
                by_cases hrn : c0 = '\r' ∧ d = '\n'
                · rw [if_pos hrn] at hl
                  rcases List.mem_cons.mp hl with h1 | h1
                  · subst h1; exact hacc c (List.mem_reverse.mp hc)
                  · by_cases hcs : cs'.isEmpty
                    · rw [if_pos hcs] at h1; simp at h1
                    · rw [if_neg hcs] at h1
                      refine ih cs' [] ?_ (by simp) l h1 c hc
                      simp only [List.length_cons] at hlen
                      omega
                · rw [if_neg hrn] at hl
                  rcases List.mem_cons.mp hl with h1 | h1
                  · subst h1; exact hacc c (List.mem_reverse.mp hc)
                  · refine ih (d :: cs') [] ?_ (by simp) l h1 c hc
                    simp only [List.length_cons] at hlen ⊢
                    omega
          · rw [Bool.not_eq_true] at hb
            rw [splitlinesGo.eq_def] at hl
            simp only [hb, Bool.false_eq_true, if_false] at hl
            refine ih cs (c0 :: acc) ?_ ?_ l hl c hc
            · simp only [List.length_cons] at hlen
              omega
            · intro x hx
              rcases List.mem_cons.mp hx with h1 | h1
              · subst h1; exact hb
              · exact hacc x h1

theorem mem_of_mem_intersperse {α : Type} (sep : α) :
    ∀ (xs : List α) (y : α), y ∈ List.intersperse sep xs → y = sep ∨ y ∈ xs := by
  intro xs
  induction xs with
  | nil => intro y hy; simp [List.intersperse] at hy
  | cons x t ih =>
      intro y hy
      cases t with
      | nil =>
          simp only [List.intersperse, List.mem_singleton] at hy
          right; simp [hy]
      | cons z t' =>
          simp only [List.intersperse] at hy
          rcases List.mem_cons.mp hy with h | h
          · right; simp [h]
          · rcases List.mem_cons.mp h with h2 | h2
            · left; exact h2
            · rcases ih y h2 with h3 | h3
              · left; exact h3
              · right; exact List.mem_cons_of_mem x h3

theorem mem_of_mem_pyLstrip (c : Char) : ∀ (l : List Char),
    c ∈ pyLstrip l → c ∈ l := by
  intro l
  induction l with
  | nil => intro h; simp [pyLstrip] at h
  | cons x xs ih =>
      intro h
      unfold pyLstrip at h
      rw [List.dropWhile_cons] at h
      by_cases hp : isPySpace x = true
      · rw [if_pos hp] at h
        exact List.mem_cons_of_mem x (ih h)
      · rw [if_neg hp] at h
        exact h

/-- No form-feed character survives document assembly: the per-line lstrip
pass splits at the `chr(12)` separators themselves and re-joins with
`"\n"`. -/
theorem assembleFullText_no_ff (ps : List (List Char)) :
    Char.ofNat 12 ∉ assembleFullText ps := by
  intro hmem
  unfold assembleFullText at hmem
  rw [List.intercalate] at hmem
  rcases List.mem_flatten.mp hmem with ⟨piece, hpiece, hcpiece⟩
  rcases mem_of_mem_intersperse _ _ _ hpiece with h | h
  · subst h
    simp only [List.mem_singleton] at hcpiece
    exact absurd hcpiece (by decide)
  · rcases List.mem_map.mp h with ⟨line, hline, hEq⟩
    have hsub : Char.ofNat 12 ∈ line :=
      mem_of_mem_pyLstrip _ line (hEq ▸ hcpiece)
    unfold pySplitlines at hline
    by_cases hemp : (List.intercalate [Char.ofNat 12] ps).isEmpty
    · rw [if_pos hemp] at hline; simp at hline
    · rw [if_neg hemp] at hline
      have hnb := splitlinesGo_no_boundary
        (List.intercalate [Char.ofNat 12] ps).length
        (List.intercalate [Char.ofNat 12] ps) [] le_rfl (by simp)
        line hline (Char.ofNat 12) hsub
      exact absurd hnb (by decide)

end CivicPulse

/-- **C4 counterexample**: a 2-page document whose pages extract to `"a"` and
`"b"` yields `fullText = "a\nb"`, which contains zero form-feed separators,
not `N - 1 = 1`: the per-line cleanup pass deletes the separator. -/
theorem C4_counterexample :
    (CivicPulse.extract_pdf
        [⟨['a'], [], [], false⟩, ⟨['b'], [], [], false⟩]).perPage.length = 2 ∧
    ¬ ((CivicPulse.extract_pdf
        [⟨['a'], [], [], false⟩, ⟨['b'], [], [], false⟩]).fullText.count
          (Char.ofNat 12) = 2 - 1) := by decide

/-- **C4 (amended)**: `fullText` joins the page texts with a form-feed
separator and then strips leading whitespace from every line, but the line
splitting of that cleanup treats the form feed itself as a line boundary, so
every page separator is replaced by a newline: the final `fullText` contains
no form-feed occurrences at all (rather than N-1 of them). -/
theorem C4_fullText_assembly (doc : List CivicPulse.Page) :
    (CivicPulse.extract_pdf doc).fullText =
      CivicPulse.assembleFullText
        ((CivicPulse.extract_pdf doc).perPage.map CivicPulse.PageResult.text) ∧
    (CivicPulse.extract_pdf doc).fullText.count (Char.ofNat 12) = 0 := by
  constructor
  · rfl
  · exact List.count_eq_zero.mpr (CivicPulse.assembleFullText_no_ff _)

namespace CivicPulse

/-! ## Schema initialization: `init_db` / `get_db_path` in `local_db.py`

The filesystem is embedded explicitly: a path is its list of components,
and the state records which directories and which files exist.  Both
`local_db.py` variants run, in this order: `db_file.parent.mkdir(parents=True,
exist_ok=True)` (inside `get_db_path`), then the `schema_path.exists()`
check, then `sqlite3.connect` (which creates the database file) and
`executescript`. -/

/-- Filesystem state: the sets of existing directories and files, each a
path given as its list of components. -/
structure FileSystem where
  dirs : List (List String)
  files : List (List String)
deriving DecidableEq, Repr

/-- All nonempty prefixes of a path: the chain of directories that
`mkdir(parents=True)` ensures. -/
def prefixes : List String → List (List String)
  | [] => []
  | x :: xs => [x] :: (prefixes xs).map (fun p => x :: p)

/-- `Path.mkdir(parents=True, exist_ok=True)`: create the directory and all
missing ancestors; existing entries are untouched. -/
def mkdirParents (fs : FileSystem) (dir : List String) : FileSystem :=
  { fs with dirs := fs.dirs ++ ((prefixes dir).filter (fun p => p ∉ fs.dirs)) }

/-- `get_db_path(db_path)`: resolve the path and ensure its parent
directory exists.  (The environment-variable / backend-relative default
resolution happens before this point; `dbPath` is the resolved path.) -/
def get_db_path (fs : FileSystem) (dbPath : List String) :
    FileSystem × List String :=
  (mkdirParents fs (dbPath.dropLast), dbPath)

/-- Error taxonomy entry for `init_db`: the `FileNotFoundError` raised when
`schema.sql` is absent. -/
inductive DBError where
  | schemaMissing
deriving DecidableEq, Repr

/-- `init_db(db_path)`: resolve the db path (creating its parent
directories), fail if the schema template is absent, otherwise let
`sqlite3.connect` create the database file and apply the schema. -/
def init_db (fs : FileSystem) (schemaPath dbPath : List String) :
    FileSystem × Except DBError Unit :=
  let r := get_db_path fs dbPath
  if schemaPath ∈ r.1.files then
    ({ r.1 with
        files := if dbPath ∈ r.1.files then r.1.files else r.1.files ++ [dbPath] },
     Except.ok ())
  else
    (r.1, Except.error DBError.schemaMissing)

end CivicPulse

/-- **C8 counterexample**: on a filesystem holding neither the schema file
nor the `data` directory, `init_db` with the default
`data/civicpulse.db` path does raise the schema-missing error, but the
filesystem is *not* left unchanged: the `data` directory was created by
`get_db_path` before the schema check ran. -/
theorem C8_counterexample :
    (CivicPulse.init_db ⟨[], []⟩ ["db", "schema.sql"]
        ["data", "civicpulse.db"]).2 =
      Except.error CivicPulse.DBError.schemaMissing ∧
    ¬ ((CivicPulse.init_db ⟨[], []⟩ ["db", "schema.sql"]
        ["data", "civicpulse.db"]).1 = ⟨[], []⟩) :=
  ⟨rfl, by decide⟩

/-- **C8 (amended)**: when the schema template is absent, `init_db` fails
immediately with the schema-missing error and creates no file — in
particular no database file — but the parent directories of the database
path are created (by `get_db_path`) before the check; apart from those
directories the filesystem is unchanged. -/
theorem C8_schema_missing_no_partial_init (fs : CivicPulse.FileSystem)
    (schemaPath dbPath : List String)
    (h : schemaPath ∉ fs.files) :
    let r := CivicPulse.init_db fs schemaPath dbPath
    r.2 = Except.error CivicPulse.DBError.schemaMissing ∧
    r.1.files = fs.files ∧
    r.1.dirs = fs.dirs ++
      ((CivicPulse.prefixes dbPath.dropLast).filter (fun p => p ∉ fs.dirs)) := by
  intro r
  have hfiles : (CivicPulse.get_db_path fs dbPath).1.files = fs.files := rfl
  have hcond : schemaPath ∉ (CivicPulse.get_db_path fs dbPath).1.files := by
    rw [hfiles]; exact h
  refine ⟨?_, ?_, ?_⟩
  · show (CivicPulse.init_db fs schemaPath dbPath).2 = _
    unfold CivicPulse.init_db
    rw [if_neg hcond]
  · show (CivicPulse.init_db fs schemaPath dbPath).1.files = _
    unfold CivicPulse.init_db
    rw [if_neg hcond]
    rfl
  · show (CivicPulse.init_db fs schemaPath dbPath).1.dirs = _
    unfold CivicPulse.init_db
    rw [if_neg hcond]
    rfl

/-- Witness for C8 (amended) at a concrete filesystem that has an unrelated
file and no `data` directory. -/
theorem C8_schema_missing_no_partial_init_witness :
    (["other", "x.txt"] ∉
        (CivicPulse.FileSystem.mk [["other"]] [["other", "x.txt"]]).files →
      False) ∨
    ((CivicPulse.init_db ⟨[["other"]], [["other", "x.txt"]]⟩
        ["db", "schema.sql"] ["data", "civicpulse.db"]).2 =
      Except.error CivicPulse.DBError.schemaMissing) :=
  Or.inr (C8_schema_missing_no_partial_init
    ⟨[["other"]], [["other", "x.txt"]]⟩ ["db", "schema.sql"]
    ["data", "civicpulse.db"] (by decide)).1

namespace CivicPulse

/-! ## Batch output naming: `process_pdfs` in
`civicpulse/src/processing/pdf_processor.py`

The output paths are built as
`os.path.join(str(output_dir), file.split(".")[0] + ".txt")` (and `.json`):
the stem is everything before the *first* dot of the file name. -/

/-- Python `str.split(sep)` for a single-character separator. -/
def pySplitOn (sep : Char) : List Char → List (List Char)
  | [] => [[]]
  | c :: cs =>
    if c = sep then [] :: pySplitOn sep cs
    else
      match pySplitOn sep cs with
      | [] => [[c]]
      | l :: ls => (c :: l) :: ls

/-- `file.split(".")[0]`. -/
def outputStem (file : List Char) : List Char := (pySplitOn '.' file).headD []

/-- `os.path.join(str(output_dir), file.split(".")[0] + ".txt")`. -/
def out_txt_path (outputDir file : List Char) : List Char :=
  outputDir ++ '/' :: (outputStem file ++ ['.', 't', 'x', 't'])

/-- `os.path.join(str(output_dir), file.split(".")[0] + ".json")`. -/
def out_json_path (outputDir file : List Char) : List Char :=
  outputDir ++ '/' :: (outputStem file ++ ['.', 'j', 's', 'o', 'n'])

theorem pySplitOn_ne_nil (sep : Char) : ∀ (l : List Char),
    pySplitOn sep l ≠ [] := by
  intro l
  cases l with
  | nil => simp [pySplitOn]
  | cons c cs =>
      by_cases h : c = sep
      · simp [pySplitOn, h]
      · simp only [pySplitOn, if_neg h]
        cases pySplitOn sep cs <;> simp

theorem outputStem_eq_takeWhile : ∀ (file : List Char),
    outputStem file = file.takeWhile (fun c => c ≠ '.') := by
  intro file
  induction file with
  | nil => rfl
  | cons c cs ih =>
      by_cases h : c = '.'
      · subst h
        simp [outputStem, pySplitOn, List.takeWhile_cons]
      · unfold outputStem at ih ⊢
        simp only [pySplitOn, if_neg h]
        cases hsp : pySplitOn '.' cs with
        | nil => exact absurd hsp (pySplitOn_ne_nil '.' cs)
        | cons l ls =>
            rw [hsp] at ih
            simp only [List.headD] at ih ⊢
            rw [List.takeWhile_cons, if_pos (by simpa using h), ih]

end CivicPulse

/-- **C9 counterexample**: for the input file `name.2024.pdf` the batch
writes `out/name.txt` — the stem is cut at the *first* dot — whereas the
claimed naming (base name with only the `.pdf` extension removed) would be
`out/name.2024.txt`. -/
theorem C9_counterexample :
    CivicPulse.out_txt_path ("out".toList) ("name.2024.pdf".toList) =
      "out/name.txt".toList ∧
    "out/name.txt".toList ≠ "out/name.2024.txt".toList := by decide

/-- **C9 (amended)**: for every successfully processed `name.pdf`, the text
and JSON artifacts are written to `<outputDir>/<stem>.txt` and
`<outputDir>/<stem>.json` where `stem` is the file name truncated at its
*first* dot (`file.split(".")[0]`) — which equals the base name with `.pdf`
removed only when the base name itself contains no dot. -/
theorem C9_output_naming (outputDir file : List Char) :
    CivicPulse.out_txt_path outputDir file =
      outputDir ++ '/' ::
        (file.takeWhile (fun c => c ≠ '.') ++ ['.', 't', 'x', 't']) ∧
    CivicPulse.out_json_path outputDir file =
      outputDir ++ '/' ::
        (file.takeWhile (fun c => c ≠ '.') ++ ['.', 'j', 's', 'o', 'n']) := by
  constructor
  · unfold CivicPulse.out_txt_path
    rw [CivicPulse.outputStem_eq_takeWhile]
  · unfold CivicPulse.out_json_path
    rw [CivicPulse.outputStem_eq_takeWhile]

namespace CivicPulse

/-! ## Batch summary: `process_pdfs` in
`civicpulse/src/processing/pdf_processor.py`, summary phase

Per successfully processed document one summary dict is appended; after the
walk, `summary.csv` is written iff at least one row exists, with columns
`["file", "pages", "text_pages", "ocr_pages", "total_chars"]` followed by
`sorted({k for row in summary_rows for k in row.keys()} - set(fieldnames))`,
and `csv.DictWriter` leaving absent keys blank. -/

/-- Python `str.lower()` (ASCII case folding, which covers the characters
the keyword counts compare). -/
def pyLower (s : List Char) : List Char := s.map Char.toLower

/-- Scanner for Python `str.count(sub)` with non-overlapping matches: after
a match the remaining `sub.length - 1` characters of the match are skipped
before matching resumes. -/
def countGo (sub : List Char) : List Char → Nat → Nat
  | [], _ => 0
  | c :: cs, 0 =>
    if sub.isPrefixOf (c :: cs) then 1 + countGo sub cs (sub.length - 1)
    else countGo sub cs 0
  | _ :: cs, skip + 1 => countGo sub cs skip

/-- Python `s.count(sub)`. -/
def pyCount (s sub : List Char) : Nat :=
  if sub.isEmpty then s.length + 1 else countGo sub s 0

/-- One entry of `summary_rows`: the five fixed fields plus the keyword-hit
dict (`{f"kw:{k}": v for k, v in hits.items()}`), in insertion order. -/
structure SummaryRow where
  file : List Char
  pages : Nat
  text_pages : Nat
  ocr_pages : Nat
  total_chars : Nat
  hits : List (List Char × Nat)
deriving DecidableEq, Repr

/-- Python dict assignment `hits[k] = v`: update in place if the key
exists, else append (insertion order preserved). -/
def dictInsert (h : List (List Char × Nat)) (k : List Char) (v : Nat) :
    List (List Char × Nat) :=
  if h.any (fun p => p.1 = k) then
    h.map (fun p => if p.1 = k then (k, v) else p)
  else h ++ [(k, v)]

/-- `hits = {}; if keywords: low = text.lower(); for k in keywords:
hits[k] = low.count(k.lower())`. -/
def kwHits (keywords : List (List Char)) (text : List Char) :
    List (List Char × Nat) :=
  if keywords.isEmpty then []
  else
    let low := pyLower text
    keywords.foldl (fun h k => dictInsert h k (pyCount low (pyLower k))) []

/-- The summary dict appended for one document. -/
def mkSummaryRow (keywords : List (List Char)) (relPath : List Char)
    (res : ExtractionResult) : SummaryRow :=
  { file := relPath, pages := res.text_pages + res.ocr_pages,
    text_pages := res.text_pages, ocr_pages := res.ocr_pages,
    total_chars := res.fullText.length,
    hits := kwHits keywords res.fullText }

/-- The summary-row phase of the batch: one row per successfully processed
document, in walk order (`docs` pairs each document's relative path with
its pages; extraction and the artifact writes succeed). -/
def processDocsRows (keywords : List (List Char))
    (docs : List (List Char × List Page)) : List SummaryRow :=
  docs.map (fun d => mkSummaryRow keywords d.1 (extract_pdf d.2))

/-- `fieldnames = ["file", "pages", "text_pages", "ocr_pages",
"total_chars"]`. -/
def fixedFieldnames : List (List Char) :=
  ["file".toList, "pages".toList, "text_pages".toList, "ocr_pages".toList,
   "total_chars".toList]

/-- The keys of one summary dict, in insertion order. -/
def rowKeys (r : SummaryRow) : List (List Char) :=
  fixedFieldnames ++ r.hits.map (fun p => ['k', 'w', ':'] ++ p.1)

/-- Lexicographic comparison of strings by code point — Python `<` on
`str`, as used by `sorted`. -/
def lexLt : List Char → List Char → Bool
  | [], [] => false
  | [], _ :: _ => true
  | _ :: _, [] => false
  | a :: as, b :: bs => if a < b then true else if a = b then lexLt as bs else false

/-- Insert into an ascending list (Python `sorted` on distinct strings). -/
def insertSorted (x : List Char) : List (List Char) → List (List Char)
  | [] => [x]
  | y :: ys => if lexLt x y || x = y then x :: y :: ys else y :: insertSorted x ys

/-- Python `sorted` for the distinct extra column names. -/
def pySorted (l : List (List Char)) : List (List Char) := l.foldr insertSorted []

/-- `fieldnames + sorted({k for row in rows for k in row.keys()} -
set(fieldnames))`. -/
def csvFieldnames (rows : List SummaryRow) : List (List Char) :=
  fixedFieldnames ++
    pySorted (((rows.foldr (fun r acc => rowKeys r ++ acc) []).dedup).filter
      (fun k => k ∉ fixedFieldnames))

/-- What `csv.DictWriter.writerow` emits for one row in one column:
`str(value)` for a present key, the blank `restval` for an absent one. -/
def cellValue (r : SummaryRow) (col : List Char) : List Char :=
  if col = "file".toList then r.file
  else if col = "pages".toList then (toString r.pages).toList
  else if col = "text_pages".toList then (toString r.text_pages).toList
  else if col = "ocr_pages".toList then (toString r.ocr_pages).toList
  else if col = "total_chars".toList then (toString r.total_chars).toList
  else
    match r.hits.find? (fun p => ['k', 'w', ':'] ++ p.1 = col) with
    | some p => (toString p.2).toList
    | none => []

/-- `summary_csv = str(log_dir / "summary.csv")` with
`log_dir = output_dir / "logs"`. -/
def summaryCsvPath (outputDir : List Char) : List Char :=
  outputDir ++ "/logs/summary.csv".toList

/-- The `if summary_rows:` block: the written table (header row and cell
grid), or nothing when no document was summarized. -/
def summaryCsv (rows : List SummaryRow) :
    Option (List (List Char) × List (List (List Char))) :=
  if rows.isEmpty then none
  else some (csvFieldnames rows,
    rows.map (fun r => (csvFieldnames rows).map (cellValue r)))

end CivicPulse

namespace CivicPulse

theorem dictInsert_mem {h : List (List Char × Nat)} {k : List Char} {v : Nat}
    {p : List Char × Nat} (hp : p ∈ dictInsert h k v) : p ∈ h ∨ p = (k, v) := by
  unfold dictInsert at hp
  split at hp
  · rcases List.mem_map.mp hp with ⟨q, hq, hfq⟩
    by_cases hqk : q.1 = k
    · right; rw [← hfq, if_pos hqk]
    · left; rw [← hfq, if_neg hqk]; exact hq
  · rcases List.mem_append.mp hp with h1 | h1
    · left; exact h1
    · right; simpa using h1

theorem dictInsert_key_mem (h : List (List Char × Nat)) (k : List Char)
    (v : Nat) : ∃ p ∈ dictInsert h k v, p.1 = k := by
  unfold dictInsert
  split
  next hc =>
    obtain ⟨q, hq, hqk⟩ := List.any_eq_true.mp hc
    refine ⟨(k, v), List.mem_map.mpr ⟨q, hq, ?_⟩, rfl⟩
    rw [if_pos (by simpa using hqk)]
  next hc =>
    exact ⟨(k, v), List.mem_append.mpr (Or.inr (List.mem_singleton.mpr rfl)), rfl⟩

theorem dictInsert_key_superset {h : List (List Char × Nat)}
    {k' : List Char} (k : List Char) (v : Nat)
    (hk : ∃ p ∈ h, p.1 = k') : ∃ p ∈ dictInsert h k v, p.1 = k' := by
  unfold dictInsert
  obtain ⟨p, hp, hpk⟩ := hk
  split
  · by_cases hpk2 : p.1 = k
    · refine ⟨(k, v), List.mem_map.mpr ⟨p, hp, by rw [if_pos hpk2]⟩, ?_⟩
      rw [← hpk, ← hpk2]
    · exact ⟨p, List.mem_map.mpr ⟨p, hp, by rw [if_neg hpk2]⟩, hpk⟩
  · exact ⟨p, List.mem_append.mpr (Or.inl hp), hpk⟩

theorem kwFold_entries (low : List Char) : ∀ (kws : List (List Char))
    (h : List (List Char × Nat)),
    (∀ p ∈ h, p.2 = pyCount low (pyLower p.1)) →
    ∀ p ∈ kws.foldl
        (fun h k => dictInsert h k (pyCount low (pyLower k))) h,
      p.2 = pyCount low (pyLower p.1) := by
  intro kws
  induction kws with
  | nil => intro h hh p hp; exact hh p hp
  | cons k ks ih =>
      intro h hh p hp
      simp only [List.foldl_cons] at hp
      refine ih _ ?_ p hp
      intro q hq
      rcases dictInsert_mem hq with h1 | h1
      · exact hh q h1
      · rw [h1]

theorem kwFold_key_mem (low : List Char) : ∀ (kws : List (List Char))
    (h : List (List Char × Nat)) (k : List Char),
    (k ∈ kws ∨ ∃ p ∈ h, p.1 = k) →
    ∃ p ∈ kws.foldl
        (fun h k => dictInsert h k (pyCount low (pyLower k))) h,
      p.1 = k := by
  intro kws
  induction kws with
  | nil =>
      intro h k hk
      rcases hk with h1 | h1
      · simp at h1
      · exact h1
  | cons k0 ks ih =>
      intro h k hk
      simp only [List.foldl_cons]
      rcases hk with h1 | h1
      · rcases List.mem_cons.mp h1 with h2 | h2
        · subst h2
          exact ih _ k (Or.inr (dictInsert_key_mem h k _))
        · exact ih _ k (Or.inl h2)
      · exact ih _ k (Or.inr (dictInsert_key_superset k0 _ h1))

theorem kwHits_find (keywords : List (List Char)) (text k : List Char)
    (hk : k ∈ keywords) :
    (kwHits keywords text).find? (fun p => p.1 = k) =
      some (k, pyCount (pyLower text) (pyLower k)) := by
  unfold kwHits
  have hne : keywords.isEmpty = false := by
    cases keywords with
    | nil => simp at hk
    | cons a l => rfl
  rw [hne]
  simp only [Bool.false_eq_true, if_false]
  have hex := kwFold_key_mem (pyLower text) keywords [] k (Or.inl hk)
  have hprop := kwFold_entries (pyLower text) keywords [] (by simp)
  have hsome : ((keywords.foldl
      (fun h k => dictInsert h k (pyCount (pyLower text) (pyLower k)))
      []).find? (fun p => p.1 = k)).isSome := by
    rw [List.find?_isSome]
    obtain ⟨p, hp, hpk⟩ := hex
    exact ⟨p, hp, by simpa using hpk⟩
  obtain ⟨q, hq⟩ := Option.isSome_iff_exists.mp hsome
  have hqk : q.1 = k := by simpa using List.find?_some hq
  have hqmem := List.mem_of_find?_eq_some hq
  have hqv := hprop q hqmem
  rw [hq]
  have hqeq : q = (k, pyCount (pyLower text) (pyLower k)) := by
    cases q with
    | mk a b =>
        simp only at hqk hqv
        subst hqk
        rw [hqv]
  rw [hqeq]

theorem cellValue_blank (r : SummaryRow) (col : List Char)
    (h : col ∉ rowKeys r) : cellValue r col = [] := by
  unfold rowKeys fixedFieldnames at h
  simp only [List.mem_append, List.mem_cons, List.mem_singleton,
    List.mem_map, not_or, not_exists] at h
  obtain ⟨⟨h1, h2, h3, h4, h5, -⟩, h6⟩ := h
  unfold cellValue
  rw [if_neg h1, if_neg h2, if_neg h3, if_neg h4, if_neg h5]
  cases hf : r.hits.find? (fun p => ['k', 'w', ':'] ++ p.1 = col) with
  | none => rfl
  | some p =>
      have hpm := List.mem_of_find?_eq_some hf
      have hpc : ['k', 'w', ':'] ++ p.1 = col := by
        simpa using List.find?_some hf
      exact absurd ⟨hpm, hpc⟩ (h6 p)

end CivicPulse

/-- **C7**: after a walk that summarized at least one document, the single
CSV table is written at `<outputDir>/logs/summary.csv`; its columns are the
five fixed ones followed by the sorted union of the keyword-count columns
of all rows; a row's cell is blank in every column whose key the row lacks;
and document-by-document the row's `total_chars` is the length of that
document's `fullText` while each keyword's count is the non-overlapping
case-insensitive occurrence count of the keyword in `fullText`. -/
theorem C7_summary_csv (outputDir : List Char) (keywords : List (List Char))
    (docs : List (List Char × List CivicPulse.Page)) (hne : docs ≠ []) :
    let rows := CivicPulse.processDocsRows keywords docs
    CivicPulse.summaryCsvPath outputDir =
      outputDir ++ "/logs/summary.csv".toList ∧
    CivicPulse.summaryCsv rows =
      some (CivicPulse.csvFieldnames rows,
        rows.map (fun r =>
          (CivicPulse.csvFieldnames rows).map (CivicPulse.cellValue r))) ∧
    CivicPulse.csvFieldnames rows = CivicPulse.fixedFieldnames ++
      CivicPulse.pySorted
        (((rows.foldr (fun r acc => CivicPulse.rowKeys r ++ acc) []).dedup).filter
          (fun k => k ∉ CivicPulse.fixedFieldnames)) ∧
    List.Forall₂ (fun d r =>
      r.total_chars = (CivicPulse.extract_pdf d.2).fullText.length ∧
      ∀ k ∈ keywords, r.hits.find? (fun p => p.1 = k) =
        some (k, CivicPulse.pyCount
          (CivicPulse.pyLower (CivicPulse.extract_pdf d.2).fullText)
          (CivicPulse.pyLower k)))
      docs rows ∧
    (∀ r ∈ rows, ∀ col, col ∉ CivicPulse.rowKeys r →
      CivicPulse.cellValue r col = []) := by
  intro rows
  refine ⟨rfl, ?_, rfl, ?_, ?_⟩
  · unfold CivicPulse.summaryCsv
    rw [if_neg]
    intro hc
    cases hd : docs with
    | nil => exact hne hd
    | cons d ds =>
        rw [show rows = CivicPulse.processDocsRows keywords docs from rfl,
          hd] at hc
        simp [CivicPulse.processDocsRows] at hc
  · show List.Forall₂ _ docs (CivicPulse.processDocsRows keywords docs)
    clear hne
    induction docs with
    | nil => exact List.Forall₂.nil
    | cons d ds ih =>
        exact List.Forall₂.cons
          ⟨rfl, fun k hk => CivicPulse.kwHits_find keywords _ k hk⟩ ih
  · intro r hr col hcol
    exact CivicPulse.cellValue_blank r col hcol

/-- Witness for C7 on a one-document batch with keywords
`["hello", "ocr"]`. -/
theorem C7_summary_csv_witness :
    (([("a.pdf".toList, [⟨"Hi there".toList, [], [], false⟩])] :
        List (List Char × List CivicPulse.Page)) ≠ []) ∧
    CivicPulse.summaryCsvPath "out".toList =
      "out".toList ++ "/logs/summary.csv".toList :=
  ⟨by decide,
   (C7_summary_csv "out".toList ["hello".toList, "ocr".toList]
      [("a.pdf".toList, [⟨"Hi there".toList, [], [], false⟩])]
      (by decide)).1⟩

namespace CivicPulse

/-! ## The duplicated batch implementations

`process_pdfs` exists both in `civicpulse/src/processing/pdf_processor.py`
(inlined extraction, writes `.txt` via `Path.write_bytes` and `.json` via
`json.dump`, then appends a summary row) and in
`backend/processing/pdf_processor.py` (calls `extract_pdf`, then tries to
ship the text through `upload_text_to_gcs(...)`).  The name
`upload_text_to_gcs` is neither defined nor imported anywhere in the
backend module, so evaluating it raises `NameError`; the surrounding
`except Exception:` logs and `continue`s, skipping the document before any
row is appended. -/

inductive PyError where
  | nameError
deriving DecidableEq, Repr

/-- The `upload_text_to_gcs(...)` call in the backend `process_pdfs`: the
name is undefined in the module, so the call site raises `NameError`
unconditionally. -/
def upload_text_to_gcs_call : Except PyError Unit :=
  Except.error PyError.nameError

/-- The backend `process_pdfs`, summary-row phase: per document, extraction
succeeds, then the text-write block runs `upload_text_to_gcs` inside
`try/except` — on the exception the document is skipped (`continue`) and no
row is appended. -/
def backend_process_rows (keywords : List (List Char))
    (docs : List (List Char × List Page)) : List SummaryRow :=
  docs.foldr
    (fun d acc =>
      match upload_text_to_gcs_call with
      | Except.error _ => acc
      | Except.ok _ => mkSummaryRow keywords d.1 (extract_pdf d.2) :: acc)
    []

end CivicPulse

/-- **C10**: on a directory containing one processable PDF (one native-text
page saying "hi"), the civicpulse `process_pdfs` returns one summary row
while the backend `process_pdfs` — whose text-write step always raises
`NameError` on the undefined `upload_text_to_gcs` and skips the document —
returns the empty list: the two implementations are not equivalent. -/
theorem C10_backend_vs_civicpulse :
    CivicPulse.backend_process_rows []
        [("a.pdf".toList, [⟨['h', 'i'], [], [], false⟩])] = [] ∧
    (CivicPulse.processDocsRows []
        [("a.pdf".toList, [⟨['h', 'i'], [], [], false⟩])]).length = 1 ∧
    CivicPulse.backend_process_rows []
        [("a.pdf".toList, [⟨['h', 'i'], [], [], false⟩])] ≠
      CivicPulse.processDocsRows []
        [("a.pdf".toList, [⟨['h', 'i'], [], [], false⟩])] := by decide
